import Mathlib

/-!
Verification of the Game of Life engine in `src/game_of_life.cpp`
(repository axelccccc/game-of-life).

The C++ code is shallowly embedded: a grid (`grid_t`, a
`std::vector<std::vector<char>>`) becomes `List (List Char)`; `int`
values become `Int` (or `Nat` where the source only ever passes
non-negative values); in-place writes to `next_grid` become functional
updates threaded through `List.foldl` in the same row-major order as the
source loops.  Reads of `grid[i][j]` where the index may be out of
bounds (undefined behaviour in C++) are modelled with `Option`: an
out-of-bounds read yields `none`, which never compares equal to
`some particle`.  The fork-join thread dispatch of
`GameOfLife::check_multithread` is modelled as sequential composition of
the per-band passes in spawn order (each band reads only the current
grid and writes its own rows of the next grid).
-/

namespace GoL

/-- Embeds `row_t` (`std::vector<char>`). -/
abbrev Row := List Char

/-- Embeds `grid_t` (`std::vector<row_t>`). -/
abbrev GridT := List Row

/-- Embeds `enum GridAlignment`. -/
inductive GridAlignment where
  | none
  | center
  | top_left
  | top_right
  | bottom_left
  | bottom_right
deriving DecidableEq, Repr

/-- Embeds `Grid::height()`, i.e. `grid.size()`. -/
def height (g : GridT) : Nat := g.length

/-- Embeds `Grid::width()`, i.e. `grid[0].size()`.  On an empty grid the
source indexes past the end (undefined behaviour); the model returns 0
there, and every theorem that depends on the width assumes a non-empty
grid. -/
def width (g : GridT) : Nat := (g.headD []).length

/-- Read `grid[i][j]` at possibly out-of-range `int` indices.  In-bounds
reads return the cell; out-of-bounds reads (undefined behaviour in the
source) return `none`. -/
def getCell (g : GridT) (i j : Int) : Option Char :=
  if 0 ≤ i ∧ 0 ≤ j then (g.getD i.toNat [])[j.toNat]? else none

/-- Read `grid[i][j]` at `Nat` indices known non-negative (the cell's own
value in the update passes).  Out of bounds defaults to a blank; the
theorems only use it in bounds. -/
def cellD (g : GridT) (i j : Nat) : Char := (g.getD i []).getD j ' '

/-- Write `grid[i][j] = c` as a functional update; out-of-range indices
leave the grid unchanged (`List.set` semantics). -/
def setCell (g : GridT) (i j : Nat) (c : Char) : GridT :=
  g.set i ((g.getD i []).set j c)

/-- Rectangularity: the grid has `H` rows, each of length `W`. -/
def Rect (g : GridT) (H W : Nat) : Prop :=
  g.length = H ∧ ∀ row ∈ g, row.length = W

instance (g : GridT) (H W : Nat) : Decidable (Rect g H W) :=
  inferInstanceAs (Decidable (_ ∧ _))

/-- Index pairs `(i, j)` at which `GameOfLife::check_neighbors(x, y)`
reads `grid[i][j]`, following the source's loops and guards exactly.
Note the inner guard is `j < 0 || i >= grid.width()`: the source tests
`i`, not `j`, against the width. -/
def neighborReads (g : GridT) (x y : Int) : List (Int × Int) :=
  [x - 1, x, x + 1].flatMap (fun i =>
    if i < 0 ∨ (height g : Int) ≤ i then []
    else [y - 1, y, y + 1].filterMap (fun j =>
      if j < 0 ∨ (width g : Int) ≤ i then none
      else if i ≠ x ∨ j ≠ y then some (i, j)
      else none))

/-- Embeds `GameOfLife::check_neighbors`: counts the inspected cells that
hold the particle character. -/
def check_neighbors (g : GridT) (particle : Char) (x y : Int) : Nat :=
  (neighborReads g x y).countP (fun ij => getCell g ij.1 ij.2 == some particle)

/-- The per-cell branch shared by `GameOfLife::check` and
`GameOfLife::check_bounded`: the character written to
`next_grid[i][j]` given the current cell and its neighbor count. -/
def lifeRule (cell : Char) (particle : Char) (count : Nat) : Char :=
  if cell = particle then
    if count < 2 ∨ count > 3 then ' ' else particle
  else if cell = ' ' ∧ count = 3 then particle
  else ' '

/-- The character the update pass computes for cell `(i, j)`. -/
def nextCell (g : GridT) (particle : Char) (i j : Nat) : Char :=
  lifeRule (cellD g i j) particle (check_neighbors g particle (i : Int) (j : Int))

/-- One iteration of the update loops' body: computes the neighbor count
of `(i, j)` in the current grid `g` and writes the transition result into
the accumulated next grid. -/
def writeCell (g : GridT) (particle : Char) (acc : GridT) (i j : Nat) : GridT :=
  setCell acc i j (nextCell g particle i j)

/-- Row-major index pairs of the double loop
`for i in [start_x, start_x+height) { for j in [start_y, start_y+width) }`. -/
def bandCells (bheight bwidth start_x start_y : Nat) : List (Nat × Nat) :=
  (List.range' start_x bheight).flatMap (fun i =>
    (List.range' start_y bwidth).map (fun j => (i, j)))

/-- Embeds `GameOfLife::check_bounded(height, width, start_x, start_y)`:
applies the transition rule to every cell of the band, writing into the
next grid.  All four `int` arguments are non-negative at every call site
(`check_multithread`), so they are modelled as `Nat`. -/
def check_bounded (g : GridT) (particle : Char)
    (bheight bwidth start_x start_y : Nat) (next : GridT) : GridT :=
  (bandCells bheight bwidth start_x start_y).foldl
    (fun acc ij => writeCell g particle acc ij.1 ij.2) next

/-- Embeds `GameOfLife::check`: the serial full-grid pass, looping over
rows `[0, height)` and columns `[0, width)`. -/
def check (g : GridT) (particle : Char) (next : GridT) : GridT :=
  (bandCells (height g) (width g) 0 0).foldl
    (fun acc ij => writeCell g particle acc ij.1 ij.2) next

/-- Embeds `GameOfLife::check_multithread(num_threads)`: splits the rows
into bands (`step_x = height / num_threads`, the last band also taking
`rest_x = height % num_threads`) and runs `check_bounded` on each full
width band.  The threads write disjoint rows of the next grid and read
only the current grid, so the fork-join dispatch is modelled as
sequential composition in spawn order. -/
def check_multithread (g : GridT) (particle : Char) (num_threads : Nat)
    (next : GridT) : GridT :=
  let step_x := height g / num_threads
  let rest_x := height g % num_threads
  let step_y := width g
  (List.range num_threads).foldl
    (fun acc i =>
      if i ≠ num_threads - 1 then
        check_bounded g particle step_x step_y (i * step_x) 0 acc
      else
        check_bounded g particle (step_x + rest_x) step_y (i * step_x) 0 acc)
    next

/-- Row range assigned to worker `i` by `check_multithread`: its first
row (`i * step_x` in the source). -/
def band_start (H N i : Nat) : Nat := i * (H / N)

/-- Row range assigned to worker `i` by `check_multithread`: its number
of rows (`step_x`, or `step_x + rest_x` for the last worker). -/
def band_size (H N i : Nat) : Nat :=
  if i ≠ N - 1 then H / N else H / N + H % N

/-- Rows `[band_start, band_start + band_size)` of worker `i`, as a
predicate on row indices. -/
def inBand (H N i r : Nat) : Prop :=
  band_start H N i ≤ r ∧ r < band_start H N i + band_size H N i

instance (H N i r : Nat) : Decidable (inBand H N i r) :=
  inferInstanceAs (Decidable (_ ∧ _))

/-- Embeds `Grid::Grid(int height, int length)`: `grid_t(height)` rows,
each `row_t(length, ' ')`.  The `int` arguments convert to `size_t`
(reduction modulo 2^64) when passed to the vector constructors; no
validation is performed. -/
def mkGrid (gheight glength : Int) : GridT :=
  List.replicate (gheight.emod (2 ^ 64)).toNat
    (List.replicate (glength.emod (2 ^ 64)).toNat ' ')

/-- Integer index range `[s, s + n)` of the embedding constructor's
loops (`for (int i = start_x; i < start_x + other.height(); i++)`). -/
def intRange (s : Int) (n : Nat) : List Int :=
  (List.range n).map (fun k => s + (Nat.cast k : Int))

/-- Row-major index pairs of the embedding constructor's double loop. -/
def embedCells (start_x start_y : Int) (oheight owidth : Nat) : List (Int × Int) :=
  (intRange start_x oheight).flatMap (fun i =>
    (intRange start_y owidth).map (fun j => (i, j)))

/-- The `switch(align)` arm computing `start_x` in
`Grid::Grid(int, int, Grid&&, GridAlignment)`; `sx0` is the
indeterminate value the uninitialized `start_x` holds when the switch
falls through its `default:` branch (alignment `none`). -/
def embedStartX (th oh sx0 : Int) : GridAlignment → Int
  | .center => th / 2 - oh / 2
  | .top_left => 0
  | .top_right => 0
  | .bottom_left => th - oh
  | .bottom_right => th - oh
  | .none => sx0

/-- The `switch(align)` arm computing `start_y` in
`Grid::Grid(int, int, Grid&&, GridAlignment)`; `sy0` is the
indeterminate value the uninitialized `start_y` holds when the switch
falls through its `default:` branch (alignment `none`). -/
def embedStartY (tw ow sy0 : Int) : GridAlignment → Int
  | .center => tw / 2 - ow / 2
  | .top_left => 0
  | .top_right => tw - ow
  | .bottom_left => 0
  | .bottom_right => tw - ow
  | .none => sy0

/-- Embeds `Grid::Grid(int, int, Grid&&, GridAlignment)`.  The source
leaves `start_x`/`start_y` uninitialized when `align` falls into the
`switch`'s `default:` branch (alignment `none`); those indeterminate
initial values are made explicit as the parameters `sx0`, `sy0`.  The
embedding double loop runs for every alignment, `none` included. -/
def gridEmbed (theight tlength : Int) (other : GridT) (align : GridAlignment)
    (sx0 sy0 : Int) : GridT :=
  let base : GridT := mkGrid theight tlength
  let th : Int := (height base : Int)
  let tw : Int := (width base : Int)
  let start_x : Int := embedStartX th (height other : Int) sx0 align
  let start_y : Int := embedStartY tw (width other : Int) sy0 align
  (embedCells start_x start_y (height other) (width other)).foldl
    (fun acc ij =>
      if ij.1 < 0 ∨ th ≤ ij.1 then acc
      else if ij.2 < 0 ∨ tw ≤ ij.2 then acc
      else setCell acc ij.1.toNat ij.2.toNat
        (cellD other (ij.1 - start_x).toNat (ij.2 - start_y).toNat))
    base

/-- Per-axis offsets stated by the specification for each alignment
(`center`: `target_dim/2 - source_dim/2`; `top-left`: `(0,0)`;
`top-right`: column offset `target_width - source_width`;
`bottom-left`: row offset `target_height - source_height`;
`bottom-right`: both).  All operands are non-negative, so integer
division here agrees with C++ truncating division.  Written from the
spec's formulas, to be compared with the constructor's computation. -/
def alignOffset (target_h target_w source_h source_w : Int) :
    GridAlignment → Int × Int
  | .center => (target_h / 2 - source_h / 2, target_w / 2 - source_w / 2)
  | .top_left => (0, 0)
  | .top_right => (0, target_w - source_w)
  | .bottom_left => (target_h - source_h, 0)
  | .bottom_right => (target_h - source_h, target_w - source_w)
  | .none => (0, 0)

/-- Embeds the padding stage of `load_grid(const std::string&)` on the
rows read from the file.  For each row shorter than `max_length` the
source executes `row.insert(row.end(), (row.size() - max_length), ' ')`;
the count is computed in `size_t` arithmetic, hence modulo 2^64.  The
`max_length` value itself is obtained in the source from `std::max`
applied to the begin and end iterators (which dereferences the end
iterator, an indeterminate value), so it is taken here as a parameter;
the padding defect below arises even for the intended maximum length. -/
def pad_rows (rows : List Row) (max_length : Nat) : List Row :=
  rows.map (fun row =>
    if row.length < max_length then
      row ++ List.replicate
        (((row.length : Int) - (max_length : Int)).emod (2 ^ 64)).toNat ' '
    else row)

/-- Every cell of the grid is the particle character or the blank. -/
def TwoSymbol (g : GridT) (particle : Char) : Prop :=
  ∀ row ∈ g, ∀ c ∈ row, c = particle ∨ c = ' '

instance (g : GridT) (particle : Char) : Decidable (TwoSymbol g particle) :=
  inferInstanceAs (Decidable (∀ row ∈ g, ∀ c ∈ row, c = particle ∨ c = ' '))

/-- Embeds `GameOfLife`'s data members. -/
structure GameOfLife where
  grid : GridT
  next_grid : GridT
  particle : Char
  stale : Bool
deriving DecidableEq, Repr

/-- Embeds the `NUM_THREADS` macro. -/
def NUM_THREADS : Nat := 4

/-- Embeds `GameOfLife::replace_particle` restricted to its effect on the
grid: every non-blank cell becomes the particle character. -/
def replace_particle (g : GridT) (particle : Char) : GridT :=
  g.map (fun row => row.map (fun c => if c ≠ ' ' then particle else c))

/-- Embeds the `GameOfLife(Grid, char)` constructor: the current grid is
the start grid with `replace_particle` applied, the next grid is a blank
grid of the same dimensions, and the engine is not stale. -/
def GameOfLife.init (start_grid : GridT) (particle : Char) : GameOfLife :=
  { grid := replace_particle start_grid particle
    next_grid := List.replicate (height start_grid) (List.replicate (width start_grid) ' ')
    particle := particle
    stale := false }

/-- Embeds `GameOfLife::update`: run `check_multithread(NUM_THREADS)`
into the next grid, then either mark the game stale (grids equal) or
copy-assign the next grid onto the current grid. -/
def update (s : GameOfLife) : GameOfLife :=
  let next := check_multithread s.grid s.particle NUM_THREADS s.next_grid
  if s.grid = next then { s with next_grid := next, stale := true }
  else { s with grid := next, next_grid := next }

/-! ### List and rectangularity groundwork -/

theorem getD_set_self {l : List Char} {n : Nat} (h : n < l.length) (x d : Char) :
    (l.set n x).getD n d = x := by
  rw [List.getD_eq_getElem?_getD, List.getElem?_set_self h]
  rfl

theorem getD_set_ne {α : Type} [Inhabited α] {l : List α} {m n : Nat} (h : n ≠ m)
    (x : α) (d : α) : (l.set n x).getD m d = l.getD m d := by
  rw [List.getD_eq_getElem?_getD, List.getElem?_set_ne h, ← List.getD_eq_getElem?_getD]

theorem rowD_set_self {g : GridT} {i : Nat} (h : i < g.length) (r : Row) :
    (g.set i r).getD i [] = r := by
  rw [List.getD_eq_getElem?_getD, List.getElem?_set_self h]
  rfl

theorem length_setCell (a : GridT) (i j : Nat) (c : Char) :
    (setCell a i j c).length = a.length := List.length_set ..

theorem rect_row_len {g : GridT} {H W i : Nat} (hg : Rect g H W) (hi : i < H) :
    (g.getD i []).length = W := by
  obtain ⟨hlen, hrows⟩ := hg
  have hi' : i < g.length := hlen ▸ hi
  rw [List.getD_eq_getElem _ _ hi']
  exact hrows _ (List.getElem_mem hi')

theorem width_of_rect {g : GridT} {H W : Nat} (hg : Rect g H W) (hH : 0 < H) :
    width g = W := by
  obtain ⟨hlen, hrows⟩ := hg
  cases g with
  | nil => simp [height] at hlen; omega
  | cons r t => exact hrows r (by simp)

theorem height_of_rect {g : GridT} {H W : Nat} (hg : Rect g H W) : height g = H := hg.1

theorem rect_setCell {a : GridT} {H W : Nat} (ha : Rect a H W) (i j : Nat) (c : Char) :
    Rect (setCell a i j c) H W := by
  by_cases hi : i < a.length
  · obtain ⟨hlen, hrows⟩ := ha
    refine ⟨by rw [length_setCell]; exact hlen, ?_⟩
    intro row hrow
    rcases List.mem_or_eq_of_mem_set hrow with h | h
    · exact hrows _ h
    · subst h
      rw [List.length_set]
      exact rect_row_len ⟨hlen, hrows⟩ (hlen ▸ hi)
  · unfold setCell
    rw [List.set_eq_of_length_le (by omega)]
    exact ha

theorem cellD_setCell_self {a : GridT} {H W : Nat} (ha : Rect a H W)
    {i j : Nat} (hi : i < H) (hj : j < W) (c : Char) :
    cellD (setCell a i j c) i j = c := by
  have hi' : i < a.length := ha.1 ▸ hi
  unfold cellD setCell
  rw [rowD_set_self hi', getD_set_self]
  rw [rect_row_len ha hi]
  exact hj

theorem cellD_setCell_ne {a : GridT} {i j i' j' : Nat}
    (h : (i', j') ≠ (i, j)) (c : Char) :
    cellD (setCell a i j c) i' j' = cellD a i' j' := by
  unfold cellD setCell
  by_cases hii : i' = i
  · subst hii
    have hjj : j' ≠ j := by simpa [Prod.ext_iff] using h
    by_cases hlen : i' < a.length
    · rw [rowD_set_self hlen, getD_set_ne (Ne.symm hjj)]
    · rw [List.set_eq_of_length_le (by omega)]
  · rw [show (a.set i ((a.getD i []).set j c)).getD i' [] = a.getD i' [] from
      getD_set_ne (fun hh => hii hh.symm) _ _]

theorem rect_ext {a b : GridT} {H W : Nat} (ha : Rect a H W) (hb : Rect b H W)
    (h : ∀ i j, i < H → j < W → cellD a i j = cellD b i j) : a = b := by
  apply List.ext_getElem (by rw [ha.1, hb.1])
  intro n h1 h2
  have hn : n < H := ha.1 ▸ h1
  apply List.ext_getElem
  · rw [ha.2 _ (List.getElem_mem h1), hb.2 _ (List.getElem_mem h2)]
  · intro m m1 m2
    have hm : m < W := by rw [ha.2 _ (List.getElem_mem h1)] at m1; exact m1
    have := h n m hn hm
    unfold cellD at this
    rw [List.getD_eq_getElem _ _ h1, List.getD_eq_getElem _ _ h2] at this
    rw [List.getD_eq_getElem _ _ m1, List.getD_eq_getElem _ _ m2] at this
    exact this

theorem mem_range_one {s n m : Nat} : m ∈ List.range' s n ↔ s ≤ m ∧ m < s + n := by
  rw [List.mem_range']
  constructor
  · rintro ⟨k, hk, rfl⟩; omega
  · intro h; exact ⟨m - s, by omega, by omega⟩

theorem mem_bandCells {h w sx sy i j : Nat} :
    (i, j) ∈ bandCells h w sx sy ↔ (sx ≤ i ∧ i < sx + h) ∧ (sy ≤ j ∧ j < sy + w) := by
  unfold bandCells
  simp only [List.mem_flatMap, List.mem_map, Prod.mk.injEq]
  constructor
  · rintro ⟨a, ha, b, hb, rfl, rfl⟩
    exact ⟨mem_range_one.1 ha, mem_range_one.1 hb⟩
  · rintro ⟨hi, hj⟩
    exact ⟨i, mem_range_one.2 hi, j, mem_range_one.2 hj, rfl, rfl⟩

/-! ### Pointwise description of the update passes -/

theorem rect_writeCell {g : GridT} {p : Char} {H W : Nat} {acc : GridT}
    (ha : Rect acc H W) (i j : Nat) : Rect (writeCell g p acc i j) H W := by
  unfold writeCell
  exact rect_setCell ha i j _

theorem rect_foldl_write {g : GridT} {p : Char} {H W : Nat} (l : List (Nat × Nat))
    {acc : GridT} (ha : Rect acc H W) :
    Rect (l.foldl (fun a ij => writeCell g p a ij.1 ij.2) acc) H W := by
  induction l generalizing acc with
  | nil => exact ha
  | cons x t ih => exact ih (rect_writeCell ha x.1 x.2)

theorem cellD_foldl_write {g : GridT} {p : Char} {H W : Nat} (l : List (Nat × Nat))
    {acc : GridT} (ha : Rect acc H W) {i j : Nat} (hi : i < H) (hj : j < W) :
    cellD (l.foldl (fun a ij => writeCell g p a ij.1 ij.2) acc) i j =
      if (i, j) ∈ l then nextCell g p i j else cellD acc i j := by
  induction l generalizing acc with
  | nil => simp
  | cons x t ih =>
    simp only [List.foldl_cons]
    rw [ih (rect_writeCell ha x.1 x.2)]
    by_cases hmem : (i, j) ∈ t
    · simp [hmem]
    · by_cases hx : (i, j) = x
      · have heq : writeCell g p acc x.1 x.2 = setCell acc i j (nextCell g p i j) := by
          rw [← hx]
          rfl
        rw [if_neg hmem, heq, cellD_setCell_self ha hi hj,
          if_pos (by simp [← hx])]
      · have hne : (i, j) ≠ (x.1, x.2) := by
          intro hh; exact hx (by rw [hh])
        rw [if_neg hmem, show writeCell g p acc x.1 x.2 =
            setCell acc x.1 x.2 (nextCell g p x.1 x.2) from rfl,
          cellD_setCell_ne hne, if_neg (by simp [hx, hmem])]

theorem rect_check_bounded {g : GridT} {p : Char} {H W : Nat} {next : GridT}
    (hn : Rect next H W) (bh bw sx sy : Nat) :
    Rect (check_bounded g p bh bw sx sy next) H W :=
  rect_foldl_write _ hn

theorem cellD_check_bounded {g : GridT} {p : Char} {H W : Nat} {next : GridT}
    (hn : Rect next H W) (bh bw sx sy : Nat) {i j : Nat} (hi : i < H) (hj : j < W) :
    cellD (check_bounded g p bh bw sx sy next) i j =
      if (sx ≤ i ∧ i < sx + bh) ∧ (sy ≤ j ∧ j < sy + bw) then nextCell g p i j
      else cellD next i j := by
  unfold check_bounded
  rw [cellD_foldl_write _ hn hi hj]
  by_cases h : (sx ≤ i ∧ i < sx + bh) ∧ (sy ≤ j ∧ j < sy + bw)
  · rw [if_pos (mem_bandCells.2 h), if_pos h]
  · rw [if_neg (fun hmem => h (mem_bandCells.1 hmem)), if_neg h]

theorem rect_check {g : GridT} {p : Char} {H W : Nat} {next : GridT}
    (hn : Rect next H W) : Rect (check g p next) H W :=
  rect_foldl_write _ hn

theorem cellD_check {g : GridT} {p : Char} {H W : Nat} {next : GridT}
    (hg : Rect g H W) (hn : Rect next H W) (hH : 0 < H)
    {i j : Nat} (hi : i < H) (hj : j < W) :
    cellD (check g p next) i j = nextCell g p i j := by
  unfold check
  rw [cellD_foldl_write _ hn hi hj, if_pos]
  rw [mem_bandCells, height_of_rect hg, width_of_rect hg hH]
  omega

/-! ### Band partition arithmetic -/

theorem band_size_eq (H N i : Nat) (h : i ≠ N - 1) : band_size H N i = H / N := by
  unfold band_size
  rw [if_pos h]

theorem band_last_end {H N : Nat} (hN : 0 < N) :
    band_start H N (N - 1) + band_size H N (N - 1) = H := by
  unfold band_start band_size
  rw [if_neg (by omega)]
  have key := Nat.div_add_mod H N
  have hmul : (N - 1) * (H / N) + (H / N) = N * (H / N) := by
    have : N - 1 + 1 = N := Nat.sub_add_cancel hN
    calc (N - 1) * (H / N) + H / N = (N - 1 + 1) * (H / N) := by rw [Nat.succ_mul]
    _ = N * (H / N) := by rw [this]
  omega

theorem bands_cover {H N : Nat} (hN : 0 < N) (i : Nat) :
    (∃ t, t < N ∧ inBand H N t i) ↔ i < H := by
  have key := Nat.div_add_mod H N
  constructor
  · rintro ⟨t, htN, hlo, hhi⟩
    by_cases ht : t ≠ N - 1
    · rw [band_size_eq _ _ _ ht] at hhi
      simp only [band_start] at hlo hhi
      have h1 : (t + 1) * (H / N) ≤ N * (H / N) :=
        Nat.mul_le_mul_right _ (by omega)
      have h2 : (t + 1) * (H / N) = t * (H / N) + H / N := Nat.succ_mul ..
      omega
    · push_neg at ht
      subst ht
      rw [band_last_end hN] at hhi
      exact hhi
  · intro hiH
    by_cases hs0 : H / N = 0
    · refine ⟨N - 1, by omega, ?_, ?_⟩
      · simp [band_start, hs0]
      · rw [band_last_end hN]
        exact hiH
    · have hpos : 0 < H / N := Nat.pos_of_ne_zero hs0
      by_cases hsmall : i / (H / N) < N - 1
      · refine ⟨i / (H / N), by omega, ?_, ?_⟩
        · simp only [band_start]
          exact Nat.div_mul_le_self ..
        · rw [band_size_eq _ _ _ (by omega)]
          simp only [band_start]
          have h1 := Nat.div_add_mod i (H / N)
          have h2 : i % (H / N) < H / N := Nat.mod_lt _ hpos
          have h3 : i / (H / N) * (H / N) = (H / N) * (i / (H / N)) := Nat.mul_comm ..
          omega
      · refine ⟨N - 1, by omega, ?_, ?_⟩
        · simp only [band_start]
          have h1 : (N - 1) * (H / N) ≤ i / (H / N) * (H / N) :=
            Nat.mul_le_mul_right _ (by omega)
          have h2 := Nat.div_mul_le_self i (H / N)
          omega
        · rw [band_last_end hN]
          exact hiH

theorem band_upper_lt {H N : Nat} {t u r : Nat} (htu : t < u) (hu : u < N)
    (hr : inBand H N t r) : r < band_start H N u := by
  obtain ⟨hlo, hhi⟩ := hr
  rw [band_size_eq _ _ _ (by omega)] at hhi
  simp only [band_start] at hlo hhi ⊢
  have h1 : (t + 1) * (H / N) ≤ u * (H / N) := Nat.mul_le_mul_right _ (by omega)
  have h2 : (t + 1) * (H / N) = t * (H / N) + H / N := Nat.succ_mul ..
  omega

theorem bands_disjoint {H N : Nat} {t u : Nat} (ht : t < N) (hu : u < N)
    (hne : t ≠ u) (r : Nat) (hrt : inBand H N t r) : ¬ inBand H N u r := by
  intro hru
  rcases Nat.lt_or_ge t u with h | h
  · exact absurd hru.1 (by have := band_upper_lt h hu hrt; omega)
  · have htu : u < t := by omega
    exact absurd hrt.1 (by have := band_upper_lt htu ht hru; omega)

/-! ### The multithreaded pass versus the serial pass -/

theorem rect_foldl_threads {g : GridT} {p : Char} {H W : Nat} (s r w N : Nat)
    (l : List Nat) {acc : GridT} (ha : Rect acc H W) :
    Rect (l.foldl
      (fun a t =>
        if t ≠ N - 1 then check_bounded g p s w (t * s) 0 a
        else check_bounded g p (s + r) w (t * s) 0 a) acc) H W := by
  induction l generalizing acc with
  | nil => exact ha
  | cons x tl ih =>
    simp only [List.foldl_cons]
    apply ih
    by_cases hx : x ≠ N - 1
    · rw [if_pos hx]; exact rect_check_bounded ha ..
    · rw [if_neg hx]; exact rect_check_bounded ha ..

theorem cellD_foldl_threads {g : GridT} {p : Char} {H W : Nat} (s r w N : Nat)
    (l : List Nat) {acc : GridT} (ha : Rect acc H W) {i j : Nat}
    (hi : i < H) (hj : j < W) (hjw : j < w) :
    cellD (l.foldl
      (fun a t =>
        if t ≠ N - 1 then check_bounded g p s w (t * s) 0 a
        else check_bounded g p (s + r) w (t * s) 0 a) acc) i j =
      if ∃ t ∈ l, t * s ≤ i ∧ i < t * s + (if t ≠ N - 1 then s else s + r)
      then nextCell g p i j else cellD acc i j := by
  induction l generalizing acc with
  | nil => simp
  | cons x tl ih =>
    have hbody : ∀ a : GridT, Rect a H W →
        cellD (if x ≠ N - 1 then check_bounded g p s w (x * s) 0 a
               else check_bounded g p (s + r) w (x * s) 0 a) i j =
          if x * s ≤ i ∧ i < x * s + (if x ≠ N - 1 then s else s + r)
          then nextCell g p i j else cellD a i j := by
      intro a haR
      by_cases hx : x ≠ N - 1
      · rw [if_pos hx, if_pos hx, cellD_check_bounded haR _ _ _ _ hi hj]
        by_cases hcond : x * s ≤ i ∧ i < x * s + s
        · rw [if_pos ⟨⟨hcond.1, hcond.2⟩, by omega⟩, if_pos hcond]
        · rw [if_neg (by intro hh; exact hcond ⟨hh.1.1, hh.1.2⟩), if_neg hcond]
      · rw [if_neg hx, if_neg hx, cellD_check_bounded haR _ _ _ _ hi hj]
        by_cases hcond : x * s ≤ i ∧ i < x * s + (s + r)
        · rw [if_pos ⟨⟨hcond.1, hcond.2⟩, by omega⟩, if_pos hcond]
        · rw [if_neg (by intro hh; exact hcond ⟨hh.1.1, hh.1.2⟩), if_neg hcond]
    have hrect : Rect (if x ≠ N - 1 then check_bounded g p s w (x * s) 0 acc
        else check_bounded g p (s + r) w (x * s) 0 acc) H W := by
      by_cases hx : x ≠ N - 1
      · rw [if_pos hx]; exact rect_check_bounded ha ..
      · rw [if_neg hx]; exact rect_check_bounded ha ..
    simp only [List.foldl_cons]
    rw [ih hrect, hbody acc ha]
    by_cases hmem : ∃ t ∈ tl, t * s ≤ i ∧ i < t * s + (if t ≠ N - 1 then s else s + r)
    · rw [if_pos hmem, if_pos ?_]
      obtain ⟨t, ht, hc⟩ := hmem
      exact ⟨t, List.mem_cons_of_mem _ ht, hc⟩
    · rw [if_neg hmem]
      by_cases hx0 : x * s ≤ i ∧ i < x * s + (if x ≠ N - 1 then s else s + r)
      · rw [if_pos hx0, if_pos ⟨x, List.mem_cons_self .., hx0⟩]
      · rw [if_neg hx0, if_neg ?_]
        rintro ⟨t, htm, hc⟩
        rcases List.mem_cons.1 htm with rfl | htl
        · exact hx0 hc
        · exact hmem ⟨t, htl, hc⟩

theorem rect_check_multithread {g : GridT} {p : Char} {H W N : Nat} {next : GridT}
    (hn : Rect next H W) : Rect (check_multithread g p N next) H W :=
  rect_foldl_threads _ _ _ _ _ hn

theorem cellD_check_multithread {g : GridT} {p : Char} {H W N : Nat} {next : GridT}
    (hg : Rect g H W) (hn : Rect next H W) (hH : 0 < H)
    {i j : Nat} (hi : i < H) (hj : j < W) :
    cellD (check_multithread g p N next) i j =
      if ∃ t, t < N ∧ inBand H N t i then nextCell g p i j else cellD next i j := by
  unfold check_multithread
  rw [height_of_rect hg, width_of_rect hg hH,
    cellD_foldl_threads (H / N) (H % N) W N _ hn hi hj hj]
  have hsame : (∃ t ∈ List.range N,
        t * (H / N) ≤ i ∧ i < t * (H / N) + (if t ≠ N - 1 then H / N else H / N + H % N))
      ↔ ∃ t, t < N ∧ inBand H N t i := by
    constructor
    · rintro ⟨t, htm, hc⟩
      exact ⟨t, List.mem_range.1 htm, hc⟩
    · rintro ⟨t, ht, hc⟩
      exact ⟨t, List.mem_range.2 ht, hc⟩
  by_cases hc : ∃ t, t < N ∧ inBand H N t i
  · rw [if_pos (hsame.2 hc), if_pos hc]
  · rw [if_neg (fun hh => hc (hsame.1 hh)), if_neg hc]

theorem check_multithread_eq_check {g next : GridT} {p : Char} {H W N : Nat}
    (hg : Rect g H W) (hn : Rect next H W) (hH : 0 < H) (hN : 0 < N) :
    check_multithread g p N next = check g p next := by
  apply rect_ext (rect_check_multithread hn) (rect_check hn)
  intro i j hi hj
  rw [cellD_check_multithread hg hn hH hi hj, cellD_check hg hn hH hi hj,
    if_pos ((bands_cover hN i).2 hi)]

/-! ### Pointwise description of the embedding constructor -/

theorem getD_replicate_self {n j : Nat} {c : Char} :
    (List.replicate n c).getD j c = c := by
  rcases Nat.lt_or_ge j n with h | h
  · rw [List.getD_eq_getElem _ _ (by simpa using h), List.getElem_replicate]
  · rw [List.getD_eq_getElem?_getD, List.getElem?_eq_none (by simpa using h)]
    rfl

theorem emod_word_eq {h : Int} (h0 : 0 ≤ h) (h64 : h < 2 ^ 64) :
    h.emod (2 ^ 64) = h :=
  Int.emod_eq_of_lt h0 h64

theorem rect_mkGrid {h w : Int} (h0 : 0 ≤ h) (h64 : h < 2 ^ 64)
    (w0 : 0 ≤ w) (w64 : w < 2 ^ 64) : Rect (mkGrid h w) h.toNat w.toNat := by
  unfold mkGrid
  rw [emod_word_eq h0 h64, emod_word_eq w0 w64]
  exact ⟨List.length_replicate .., fun row hrow => by
    rw [List.eq_of_mem_replicate hrow, List.length_replicate]⟩

theorem cellD_mkGrid (h w : Int) (i j : Nat) : cellD (mkGrid h w) i j = ' ' := by
  unfold cellD mkGrid
  rcases Nat.lt_or_ge i (h.emod (2 ^ 64)).toNat with hlt | hge
  · have hrow : (List.replicate (h.emod (2 ^ 64)).toNat
        (List.replicate (w.emod (2 ^ 64)).toNat ' ')).getD i [] =
        List.replicate (w.emod (2 ^ 64)).toNat ' ' := by
      rw [List.getD_eq_getElem _ _ (by simpa using hlt), List.getElem_replicate]
    rw [hrow]
    exact getD_replicate_self
  · have hrow : (List.replicate (h.emod (2 ^ 64)).toNat
        (List.replicate (w.emod (2 ^ 64)).toNat ' ')).getD i [] = ([] : Row) := by
      rw [List.getD_eq_getElem?_getD, List.getElem?_eq_none (by simpa using hge)]
      rfl
    rw [hrow]
    rfl

theorem height_mkGrid {h : Int} (w : Int) (h0 : 0 ≤ h) (h64 : h < 2 ^ 64) :
    height (mkGrid h w) = h.toNat := by
  unfold height mkGrid
  rw [emod_word_eq h0 h64, List.length_replicate]

theorem width_mkGrid {h w : Int} (h0 : 0 < h) (h64 : h < 2 ^ 64)
    (w0 : 0 ≤ w) (w64 : w < 2 ^ 64) : width (mkGrid h w) = w.toNat :=
  width_of_rect (rect_mkGrid (by omega) h64 w0 w64) (by omega)

theorem mem_intRange {s m : Int} {n : Nat} :
    m ∈ intRange s n ↔ s ≤ m ∧ m < s + n := by
  unfold intRange
  simp only [List.mem_map, List.mem_range]
  constructor
  · rintro ⟨k, hk, rfl⟩
    omega
  · intro h
    exact ⟨(m - s).toNat, by omega, by omega⟩


theorem mem_embedCells {sx sy : Int} {oh ow : Nat} {q : Int × Int} :
    q ∈ embedCells sx sy oh ow ↔
      (sx ≤ q.1 ∧ q.1 < sx + oh) ∧ (sy ≤ q.2 ∧ q.2 < sy + ow) := by
  unfold embedCells
  simp only [List.mem_flatMap, List.mem_map]
  constructor
  · rintro ⟨a, ha, b, hb, rfl⟩
    exact ⟨mem_intRange.1 ha, mem_intRange.1 hb⟩
  · rintro ⟨h1, h2⟩
    exact ⟨q.1, mem_intRange.2 h1, q.2, mem_intRange.2 h2, rfl⟩

theorem rect_foldl_clip {H W : Nat} {th tw : Int} (v : Int × Int → Char)
    (l : List (Int × Int)) {acc : GridT} (ha : Rect acc H W) :
    Rect (l.foldl (fun acc2 ij =>
      if ij.1 < 0 ∨ th ≤ ij.1 then acc2
      else if ij.2 < 0 ∨ tw ≤ ij.2 then acc2
      else setCell acc2 ij.1.toNat ij.2.toNat (v ij)) acc) H W := by
  induction l generalizing acc with
  | nil => exact ha
  | cons x tl ih =>
    simp only [List.foldl_cons]
    apply ih
    split
    · exact ha
    · split
      · exact ha
      · exact rect_setCell ha ..

theorem cellD_foldl_clip {H W : Nat} {th tw : Int}
    (hth : th = (H : Int)) (htw : tw = (W : Int)) (v : Int × Int → Char)
    (l : List (Int × Int)) {acc : GridT} (ha : Rect acc H W)
    {i j : Nat} (hi : i < H) (hj : j < W) :
    cellD (l.foldl (fun acc2 ij =>
      if ij.1 < 0 ∨ th ≤ ij.1 then acc2
      else if ij.2 < 0 ∨ tw ≤ ij.2 then acc2
      else setCell acc2 ij.1.toNat ij.2.toNat (v ij)) acc) i j =
      if ((i : Int), (j : Int)) ∈ l then v ((i : Int), (j : Int))
      else cellD acc i j := by
  subst hth htw
  induction l generalizing acc with
  | nil => simp
  | cons x tl ih =>
    simp only [List.foldl_cons]
    by_cases hg1 : x.1 < 0 ∨ (H : Int) ≤ x.1
    · rw [if_pos hg1] at *
      rw [ih ha]
      have hxne : ((i : Int), (j : Int)) ≠ x := by
        intro hh
        rw [← hh] at hg1
        simp at hg1
        omega
      by_cases hmem : ((i : Int), (j : Int)) ∈ tl
      · rw [if_pos hmem, if_pos (List.mem_cons_of_mem _ hmem)]
      · rw [if_neg hmem, if_neg (by
          intro hh
          rcases List.mem_cons.1 hh with hh | hh
          · exact hxne hh
          · exact hmem hh)]
    · rw [if_neg hg1]
      by_cases hg2 : x.2 < 0 ∨ (W : Int) ≤ x.2
      · rw [if_pos hg2]
        rw [ih ha]
        have hxne : ((i : Int), (j : Int)) ≠ x := by
          intro hh
          rw [← hh] at hg2
          simp at hg2
          omega
        by_cases hmem : ((i : Int), (j : Int)) ∈ tl
        · rw [if_pos hmem, if_pos (List.mem_cons_of_mem _ hmem)]
        · rw [if_neg hmem, if_neg (by
            intro hh
            rcases List.mem_cons.1 hh with hh | hh
            · exact hxne hh
            · exact hmem hh)]
      · rw [if_neg hg2]
        rw [ih (rect_setCell ha ..)]
        push_neg at hg1 hg2
        by_cases hmem : ((i : Int), (j : Int)) ∈ tl
        · rw [if_pos hmem, if_pos (List.mem_cons_of_mem _ hmem)]
        · rw [if_neg hmem]
          by_cases hx : ((i : Int), (j : Int)) = x
          · have h1 : x.1.toNat = i := by
              rw [← hx]
              exact Int.toNat_natCast i
            have h2 : x.2.toNat = j := by
              rw [← hx]
              exact Int.toNat_natCast j
            rw [h1, h2, cellD_setCell_self ha hi hj,
              if_pos (List.mem_cons.2 (Or.inl hx)), hx]
          · have hne : (i, j) ≠ (x.1.toNat, x.2.toNat) := by
              intro hh
              apply hx
              have e1 : i = x.1.toNat := congrArg Prod.fst hh
              have e2 : j = x.2.toNat := congrArg Prod.snd hh
              have : (i : Int) = x.1 := by omega
              have : (j : Int) = x.2 := by omega
              ext <;> simp <;> omega
            rw [cellD_setCell_ne hne, if_neg (by
              intro hh
              rcases List.mem_cons.1 hh with hh | hh
              · exact hx hh
              · exact hmem hh)]

theorem gridEmbed_pointwise (theight tlength : Int) (other : GridT)
    (align : GridAlignment) (sx0 sy0 : Int) (SH SW : Nat)
    (hother : Rect other SH SW) (hSH : 0 < SH)
    (hth : 0 < theight) (hth64 : theight < 2 ^ 64)
    (htl : 0 ≤ tlength) (htl64 : tlength < 2 ^ 64) :
    Rect (gridEmbed theight tlength other align sx0 sy0) theight.toNat tlength.toNat ∧
    (∀ i j : Nat, i < theight.toNat → j < tlength.toNat →
      cellD (gridEmbed theight tlength other align sx0 sy0) i j =
        if (embedStartX theight (SH : Int) sx0 align ≤ (i : Int) ∧
            (i : Int) < embedStartX theight (SH : Int) sx0 align + SH) ∧
           (embedStartY tlength (SW : Int) sy0 align ≤ (j : Int) ∧
            (j : Int) < embedStartY tlength (SW : Int) sy0 align + SW)
        then cellD other ((i : Int) - embedStartX theight (SH : Int) sx0 align).toNat
                         ((j : Int) - embedStartY tlength (SW : Int) sy0 align).toNat
        else ' ') := by
  have hbase : Rect (mkGrid theight tlength) theight.toNat tlength.toNat :=
    rect_mkGrid (by omega) hth64 htl htl64
  have hhb : height (mkGrid theight tlength) = theight.toNat :=
    height_mkGrid _ (by omega) hth64
  have hwb : width (mkGrid theight tlength) = tlength.toNat :=
    width_mkGrid hth hth64 htl htl64
  have hho : height other = SH := hother.1
  have hwo : width other = SW := width_of_rect hother hSH
  have hhbi : (height (mkGrid theight tlength) : Int) = theight := by
    rw [hhb]; omega
  have hwbi : (width (mkGrid theight tlength) : Int) = tlength := by
    rw [hwb]; omega
  have hhoi : (height other : Int) = (SH : Int) := by rw [hho]
  have hwoi : (width other : Int) = (SW : Int) := by rw [hwo]
  simp only [gridEmbed]
  rw [hhbi, hwbi, hhoi, hwoi, hho, hwo]
  constructor
  · exact rect_foldl_clip _ _ hbase
  · intro i j hi hj
    rw [cellD_foldl_clip (by omega) (by omega)
      (fun ij => cellD other (ij.1 - embedStartX theight (SH : Int) sx0 align).toNat
        (ij.2 - embedStartY tlength (SW : Int) sy0 align).toNat) _ hbase hi hj]
    by_cases hcond : (embedStartX theight (SH : Int) sx0 align ≤ (i : Int) ∧
          (i : Int) < embedStartX theight (SH : Int) sx0 align + SH) ∧
        (embedStartY tlength (SW : Int) sy0 align ≤ (j : Int) ∧
          (j : Int) < embedStartY tlength (SW : Int) sy0 align + SW)
    · rw [if_pos (mem_embedCells.2 hcond), if_pos hcond]
    · rw [if_neg (fun hmem => hcond (mem_embedCells.1 hmem)), if_neg hcond]
      exact cellD_mkGrid ..

theorem embedStart_eq_alignOffset (th tw oh ow sx0 sy0 : Int)
    (align : GridAlignment) (h : align ≠ GridAlignment.none) :
    (embedStartX th oh sx0 align, embedStartY tw ow sy0 align) =
      alignOffset th tw oh ow align := by
  cases align
  · exact absurd rfl h
  all_goals rfl

/-! ### The two-symbol alphabet invariant -/

theorem lifeRule_two_symbol (cell p : Char) (count : Nat) :
    lifeRule cell p count = p ∨ lifeRule cell p count = ' ' := by
  unfold lifeRule
  split
  · split
    · exact Or.inr rfl
    · exact Or.inl rfl
  · split
    · exact Or.inl rfl
    · exact Or.inr rfl

theorem lifeRule_cases (cell p : Char) (count : Nat) :
    lifeRule cell p count =
      if cell = p ∧ (count = 2 ∨ count = 3) then p
      else if cell = ' ' ∧ count = 3 then p
      else ' ' := by
  unfold lifeRule
  by_cases hc : cell = p
  · by_cases hcount : count = 2 ∨ count = 3
    · rw [if_pos hc, if_neg (by omega), if_pos ⟨hc, hcount⟩]
    · rw [if_pos hc, if_pos (by omega), if_neg (fun hh => hcount hh.2)]
      by_cases hb : cell = ' ' ∧ count = 3
      · exact absurd hb.2 (by omega)
      · rw [if_neg hb]
  · rw [if_neg hc,
      if_neg (show ¬(cell = p ∧ (count = 2 ∨ count = 3)) from fun hh => hc hh.1)]

theorem twoSymbol_setCell {a : GridT} {p c : Char} (ha : TwoSymbol a p)
    (hc : c = p ∨ c = ' ') (i j : Nat) : TwoSymbol (setCell a i j c) p := by
  intro row hrow
  rcases List.mem_or_eq_of_mem_set hrow with h | h
  · exact ha row h
  · subst h
    intro ch hch
    rcases List.mem_or_eq_of_mem_set hch with h2 | h2
    · by_cases hi : i < a.length
      · refine ha (a.getD i []) ?_ ch h2
        rw [List.getD_eq_getElem _ _ hi]
        exact List.getElem_mem hi
      · rw [List.getD_eq_getElem?_getD, List.getElem?_eq_none (by omega)] at h2
        simp at h2
    · subst h2
      exact hc

theorem twoSymbol_foldl_write {g : GridT} {p : Char} (l : List (Nat × Nat))
    {acc : GridT} (ha : TwoSymbol acc p) :
    TwoSymbol (l.foldl (fun a ij => writeCell g p a ij.1 ij.2) acc) p := by
  induction l generalizing acc with
  | nil => exact ha
  | cons x tl ih =>
    exact ih (twoSymbol_setCell ha (lifeRule_two_symbol ..) x.1 x.2)

theorem twoSymbol_check_bounded {g next : GridT} {p : Char}
    (hn : TwoSymbol next p) (bh bw sx sy : Nat) :
    TwoSymbol (check_bounded g p bh bw sx sy next) p :=
  twoSymbol_foldl_write _ hn

theorem twoSymbol_check_multithread {g next : GridT} {p : Char} {N : Nat}
    (hn : TwoSymbol next p) : TwoSymbol (check_multithread g p N next) p := by
  unfold check_multithread
  generalize List.range N = l
  induction l generalizing next with
  | nil => exact hn
  | cons x tl ih =>
    simp only [List.foldl_cons]
    apply ih
    split
    · exact twoSymbol_check_bounded hn _ _ _ _
    · exact twoSymbol_check_bounded hn _ _ _ _

theorem twoSymbol_replace (g : GridT) (p : Char) :
    TwoSymbol (replace_particle g p) p := by
  intro row hrow
  unfold replace_particle at hrow
  rw [List.mem_map] at hrow
  obtain ⟨r0, hr0, rfl⟩ := hrow
  intro c hc
  rw [List.mem_map] at hc
  obtain ⟨c0, hc0, rfl⟩ := hc
  by_cases h : c0 ≠ ' '
  · rw [if_pos h]
    exact Or.inl rfl
  · rw [if_neg h]
    push_neg at h
    exact Or.inr h

theorem twoSymbol_blank (n m : Nat) (p : Char) :
    TwoSymbol (List.replicate n (List.replicate m ' ')) p := by
  intro row hrow c hc
  rw [List.eq_of_mem_replicate hrow] at hc
  exact Or.inr (List.eq_of_mem_replicate hc)

/-! ### Claim C1 -/

/-- C1: the claim states that neighbor counting inspects only adjacent
coordinates inside grid bounds and counts every in-bounds adjacent alive
cell exactly once.  The code violates it: the inner guard of
`check_neighbors` tests `i >= grid.width()` instead of `j >= grid.width()`.
Evaluated at the failing inputs: on a 1×1 grid, counting neighbors of
cell (0,0) reads `grid[0][1]`, column index 1 ≥ width 1; and on a 3×2
grid, counting neighbors of cell (2,0) never inspects the in-bounds
adjacent cell (2,1), because row index 2 ≥ width 2 discards the whole
row. -/
theorem c1_check_neighbors_column_guard_bug :
    ((0 : Int), (1 : Int)) ∈ neighborReads [['*']] 0 0 ∧
    width [['*']] = 1 ∧
    ((2 : Int), (1 : Int)) ∉ neighborReads [[' ', ' '], [' ', ' '], [' ', ' ']] 2 0 ∧
    height [[' ', ' '], [' ', ' '], [' ', ' ']] = 3 ∧
    width [[' ', ' '], [' ', ' '], [' ', ' ']] = 2 := by decide

/-! ### Claim C2 -/

/-- C2: one full update pass writes to each cell of the next grid exactly
the alive symbol when the cell is alive with neighbor count 2 or 3, the
alive symbol when the cell is blank with neighbor count exactly 3, and
the blank symbol otherwise; the pass leaves the shape of the next grid
intact and reads the current grid `g` only (it is an unmodified input of
the pure pass). -/
theorem c2_update_pass_rule (g next : GridT) (p : Char) (H W : Nat)
    (hg : Rect g H W) (hn : Rect next H W) (hH : 0 < H) :
    Rect (check g p next) H W ∧
    ∀ i j : Nat, i < H → j < W →
      cellD (check g p next) i j =
        if cellD g i j = p ∧ (check_neighbors g p (i : Int) (j : Int) = 2 ∨
            check_neighbors g p (i : Int) (j : Int) = 3) then p
        else if cellD g i j = ' ' ∧ check_neighbors g p (i : Int) (j : Int) = 3 then p
        else ' ' := by
  refine ⟨rect_check hn, fun i j hi hj => ?_⟩
  rw [cellD_check hg hn hH hi hj]
  exact lifeRule_cases ..

/-- C2 witness: a lone alive cell on a 1×1 grid has neighbor count 0 and
is written blank by the pass. -/
theorem c2_update_pass_rule_witness :
    cellD (check [['*']] '*' [[' ']]) 0 0 = ' ' :=
  ((c2_update_pass_rule [['*']] [[' ']] '*' 1 1 (by decide) (by decide)
    (by decide)).2 0 0 (by decide) (by decide)).trans (by decide)

/-! ### Claim C3 -/

/-- C3: for `H ≥ N ≥ 1` the partitioner assigns worker `i < N-1` the rows
`[i*(H/N), (i+1)*(H/N))`, the last worker additionally the `H mod N`
trailing rows (its band ends exactly at `H`); the bands are pairwise
disjoint, jointly cover the `H` rows, and each band's cell set spans the
full width passed to it. -/
theorem c3_partition_bands (H N : Nat) (hN : 1 ≤ N) (hH : N ≤ H) :
    (∀ i, i < N → i ≠ N - 1 →
        band_start H N i = i * (H / N) ∧
        band_start H N i + band_size H N i = (i + 1) * (H / N)) ∧
    band_start H N (N - 1) + band_size H N (N - 1) = H ∧
    band_size H N (N - 1) = H / N + H % N ∧
    (∀ t u, t < N → u < N → t ≠ u → ∀ r, inBand H N t r → ¬ inBand H N u r) ∧
    (∀ r, r < H ↔ ∃ t, t < N ∧ inBand H N t r) ∧
    (∀ t W i j, t < N →
      ((i, j) ∈ bandCells (band_size H N t) W (band_start H N t) 0 ↔
        inBand H N t i ∧ j < W)) := by
  refine ⟨?_, band_last_end (by omega), ?_,
    fun t u ht hu hne r => bands_disjoint ht hu hne r,
    fun r => (bands_cover (by omega) r).symm, ?_⟩
  · intro i hiN hine
    refine ⟨rfl, ?_⟩
    rw [band_size_eq _ _ _ hine]
    unfold band_start
    exact (Nat.succ_mul ..).symm
  · unfold band_size
    rw [if_neg (by omega)]
  · intro t W i j ht
    rw [mem_bandCells]
    unfold inBand
    omega

/-- C3 witness: with 5 rows and 2 workers the last band ends at row 5 and
row 3 lies in exactly the bands the cover property names. -/
theorem c3_partition_bands_witness :
    band_start 5 2 1 + band_size 5 2 1 = 5 ∧
    (3 < 5 ↔ ∃ t, t < 2 ∧ inBand 5 2 t 3) :=
  ⟨(c3_partition_bands 5 2 (by decide) (by decide)).2.1,
   (c3_partition_bands 5 2 (by decide) (by decide)).2.2.2.2.1 3⟩

/-! ### Claim C4 -/

/-- C4: for any grid, any rectangular next buffer and any worker count
`N` with `1 ≤ N ≤ height`, the banded multithreaded pass produces
exactly the grid the serial full-grid pass produces. -/
theorem c4_multithread_eq_serial (g next : GridT) (p : Char) (N H W : Nat)
    (hg : Rect g H W) (hn : Rect next H W) (hN1 : 1 ≤ N) (hNH : N ≤ height g) :
    check_multithread g p N next = check g p next := by
  have hH : 0 < H := by
    have := height_of_rect hg
    omega
  exact check_multithread_eq_check hg hn hH (by omega)

/-- C4 witness: a 3×3 blinker stepped with 2 workers equals the serial
result. -/
theorem c4_multithread_eq_serial_witness :
    check_multithread [[' ', ' ', ' '], ['*', '*', '*'], [' ', ' ', ' ']] '*' 2
        (List.replicate 3 (List.replicate 3 ' ')) =
      check [[' ', ' ', ' '], ['*', '*', '*'], [' ', ' ', ' ']] '*'
        (List.replicate 3 (List.replicate 3 ' ')) :=
  c4_multithread_eq_serial _ _ '*' 2 3 3 (by decide) (by decide)
    (by decide) (by decide)

/-! ### Claim C5 -/

/-- C5 counterexample: the claim says that when the computed next
generation differs from the current grid the two grids are swapped; a
swap would leave the old current grid in `next_grid`.  On a 1×1 grid
holding one alive cell the computed next generation `[[' ']]` differs
from the current grid `[['*']]`, yet after `update` the `next_grid`
member does not hold the old current grid: the source copy-assigns
(`grid = next_grid`) instead of swapping. -/
theorem c5_no_swap_counterexample :
    check_multithread [['*']] '*' NUM_THREADS [[' ']] ≠ [['*']] ∧
    (update { grid := [['*']], next_grid := [[' ']], particle := '*',
              stale := false }).next_grid ≠ [['*']] := by decide

/-- C5 amended: after one step, if the computed next generation equals
the current grid the stale flag is set and the current grid is left
unchanged; otherwise the current grid is copy-assigned the computed next
generation (the next-generation buffer keeps that same computed grid —
no swap takes place) and the stale flag keeps its previous value (false
while running). -/
theorem c5_update_step (s : GameOfLife) (H W : Nat)
    (hg : Rect s.grid H W) (hn : Rect s.next_grid H W) (hH : 0 < H) :
    (check s.grid s.particle s.next_grid = s.grid →
      (update s).grid = s.grid ∧
      (update s).next_grid = check s.grid s.particle s.next_grid ∧
      (update s).stale = true) ∧
    (check s.grid s.particle s.next_grid ≠ s.grid →
      (update s).grid = check s.grid s.particle s.next_grid ∧
      (update s).next_grid = check s.grid s.particle s.next_grid ∧
      (update s).stale = s.stale) := by
  have hc : check_multithread s.grid s.particle NUM_THREADS s.next_grid
      = check s.grid s.particle s.next_grid :=
    check_multithread_eq_check hg hn hH (by decide)
  simp only [update, hc]
  constructor
  · intro h
    rw [if_pos h.symm]
    exact ⟨rfl, rfl, rfl⟩
  · intro h
    rw [if_neg (fun hh => h hh.symm)]
    exact ⟨rfl, rfl, rfl⟩

/-- C5 witness: stepping the 1×1 alive grid takes the changed branch:
the current grid becomes the computed blank generation, the buffer holds
the same computed grid, and the flag stays false. -/
theorem c5_update_step_witness :
    (update { grid := [['*']], next_grid := [[' ']], particle := '*',
              stale := false }).grid = check [['*']] '*' [[' ']] ∧
    (update { grid := [['*']], next_grid := [[' ']], particle := '*',
              stale := false }).next_grid = check [['*']] '*' [[' ']] ∧
    (update { grid := [['*']], next_grid := [[' ']], particle := '*',
              stale := false }).stale = false :=
  (c5_update_step { grid := [['*']], next_grid := [[' ']], particle := '*',
                    stale := false } 1 1 (by decide) (by decide) (by decide)).2
    (by decide)

/-! ### Claim C6 -/

/-- C6: for the five positioning alignments, embedding a source grid
into a target canvas places the source at the per-axis offsets stated by
the spec (with truncating integer division for `center`; all the
divisions act on non-negative operands, where Lean and C++ division
agree), clips every source cell whose target coordinate falls outside
the canvas, and leaves every uncovered target cell blank: each in-bounds
target cell holds the source cell at the offset position when that
position exists, and blank otherwise. -/
theorem c6_embed_alignment (theight tlength : Int) (other : GridT)
    (align : GridAlignment) (sx0 sy0 : Int) (SH SW : Nat)
    (hother : Rect other SH SW) (hSH : 0 < SH)
    (hth : 0 < theight) (hth64 : theight < 2 ^ 64)
    (htl : 0 ≤ tlength) (htl64 : tlength < 2 ^ 64)
    (halign : align ≠ GridAlignment.none) :
    Rect (gridEmbed theight tlength other align sx0 sy0)
      theight.toNat tlength.toNat ∧
    (∀ i j : Nat, i < theight.toNat → j < tlength.toNat →
      cellD (gridEmbed theight tlength other align sx0 sy0) i j =
        if ((alignOffset theight tlength (SH : Int) (SW : Int) align).1 ≤ (i : Int) ∧
            (i : Int) < (alignOffset theight tlength (SH : Int) (SW : Int) align).1 + SH) ∧
           ((alignOffset theight tlength (SH : Int) (SW : Int) align).2 ≤ (j : Int) ∧
            (j : Int) < (alignOffset theight tlength (SH : Int) (SW : Int) align).2 + SW)
        then cellD other
          ((i : Int) - (alignOffset theight tlength (SH : Int) (SW : Int) align).1).toNat
          ((j : Int) - (alignOffset theight tlength (SH : Int) (SW : Int) align).2).toNat
        else ' ') := by
  have hoff := embedStart_eq_alignOffset theight tlength (SH : Int) (SW : Int)
    sx0 sy0 align halign
  have h1 : embedStartX theight (SH : Int) sx0 align =
      (alignOffset theight tlength (SH : Int) (SW : Int) align).1 := by
    rw [← hoff]
  have h2 : embedStartY tlength (SW : Int) sy0 align =
      (alignOffset theight tlength (SH : Int) (SW : Int) align).2 := by
    rw [← hoff]
  have hmain := gridEmbed_pointwise theight tlength other align sx0 sy0 SH SW
    hother hSH hth hth64 htl htl64
  rw [h1, h2] at hmain
  exact hmain

/-- C6 witness: embedding the 2×2 source into a 6×6 canvas with `center`
places the source's top-left cell at target (2,2), as §8 of the spec
demands. -/
theorem c6_embed_alignment_witness :
    cellD (gridEmbed 6 6 [['a', 'b'], ['c', 'd']] GridAlignment.center 0 0) 2 2
      = 'a' :=
  ((c6_embed_alignment 6 6 [['a', 'b'], ['c', 'd']] GridAlignment.center 0 0 2 2
      (by decide) (by decide) (by decide) (by decide) (by decide) (by decide)
      (by decide)).2 2 2 (by decide) (by decide)).trans (by decide)

/-! ### Claim C7 -/

/-- C7 counterexample: the claim states that alignment `none` skips the
embedding step entirely and always yields an all-blank canvas.  In the
source the `switch` leaves `start_x`/`start_y` uninitialized for `none`
and the embedding loop still runs with those indeterminate values; when
the indeterminate offsets happen to be (0,0), a 1×1 alive source is
embedded at the origin of a 2×2 canvas, so the canvas is not blank. -/
theorem c7_none_counterexample :
    cellD (gridEmbed 2 2 [['*']] GridAlignment.none 0 0) 0 0 = '*' ∧
    ('*' : Char) ≠ ' ' := by decide

/-- C7 amended: with alignment `none` the offsets stay at the
indeterminate initial values `sx0`, `sy0` of the uninitialized locals
and the embedding loop still executes: the result is the source embedded
at `(sx0, sy0)` with out-of-canvas cells clipped — an all-blank canvas
only when every source cell lands out of bounds, not unconditionally. -/
theorem c7_none_embeds_at_indeterminate_offsets (theight tlength : Int)
    (other : GridT) (sx0 sy0 : Int) (SH SW : Nat)
    (hother : Rect other SH SW) (hSH : 0 < SH)
    (hth : 0 < theight) (hth64 : theight < 2 ^ 64)
    (htl : 0 ≤ tlength) (htl64 : tlength < 2 ^ 64) :
    Rect (gridEmbed theight tlength other GridAlignment.none sx0 sy0)
      theight.toNat tlength.toNat ∧
    (∀ i j : Nat, i < theight.toNat → j < tlength.toNat →
      cellD (gridEmbed theight tlength other GridAlignment.none sx0 sy0) i j =
        if (sx0 ≤ (i : Int) ∧ (i : Int) < sx0 + SH) ∧
           (sy0 ≤ (j : Int) ∧ (j : Int) < sy0 + SW)
        then cellD other ((i : Int) - sx0).toNat ((j : Int) - sy0).toNat
        else ' ') :=
  gridEmbed_pointwise theight tlength other GridAlignment.none sx0 sy0 SH SW
    hother hSH hth hth64 htl htl64

/-- C7 witness: with indeterminate offsets (1,1) a 1×1 source lands at
cell (1,1) of a 3×3 canvas. -/
theorem c7_none_witness :
    cellD (gridEmbed 3 3 [['*']] GridAlignment.none 1 1) 1 1 = '*' :=
  ((c7_none_embeds_at_indeterminate_offsets 3 3 [['*']] 1 1 1 1
      (by decide) (by decide) (by decide) (by decide) (by decide)
      (by decide)).2 1 1 (by decide) (by decide)).trans (by decide)

/-! ### Claim C8 -/

/-- C8: the claim states that the loader right-pads every short row with
blanks up to the longest row length, yielding a rectangle.  The code
computes the insert count as `row.size() - max_length` in `size_t`
arithmetic — backwards, so for a short row it wraps modulo 2^64: on the
two file rows `"*"` and `"**"` (longest length 2) the first row is
extended to length 2^64 rather than 2, so the rows do not end up with
identical lengths (in practice the huge allocation aborts the
program). -/
theorem c8_padding_bug :
    (pad_rows [['*'], ['*', '*']] 2).map List.length = [2 ^ 64, 2] ∧
    (2 : Nat) ^ 64 ≠ 2 := by
  constructor
  · have hcount : ((((1 : Nat) : Int) - ((2 : Nat) : Int)).emod (2 ^ 64)).toNat
        = 2 ^ 64 - 1 := by decide
    unfold pad_rows
    simp only [List.map_cons, List.map_nil, if_pos (by decide : (1 : Nat) < 2),
      if_neg (by decide : ¬((2 : Nat) < 2)), List.length_append,
      List.length_replicate, List.length_cons, List.length_nil]
    rw [hcount]
    norm_num
  · decide

/-! ### Claim C9 -/

/-- C9 counterexample: the claim states that construction fails when
height ≤ 0 or width ≤ 0 rather than producing a zero-area grid.  The
constructor performs no validation: called with height 0 it returns the
zero-area (0-row) grid. -/
theorem c9_zero_area_counterexample :
    mkGrid 0 5 = [] ∧ height (mkGrid 0 5) * width (mkGrid 0 5) = 0 := by decide

/-- C9 amended: for non-negative in-range arguments the constructor
returns a grid of exactly the requested dimensions with every cell
blank; for height 0 or width 0 it does not fail but silently returns a
zero-area grid (no rejection exists in the code; negative arguments
convert modulo 2^64 into huge allocation counts). -/
theorem c9_mkGrid_dimensions (gh gl : Int) (hh : 0 ≤ gh) (hh64 : gh < 2 ^ 64)
    (hl : 0 ≤ gl) (hl64 : gl < 2 ^ 64) :
    Rect (mkGrid gh gl) gh.toNat gl.toNat ∧
    (∀ row ∈ mkGrid gh gl, ∀ c ∈ row, c = ' ') ∧
    (gh = 0 → mkGrid gh gl = []) ∧
    (gl = 0 → ∀ row ∈ mkGrid gh gl, row = []) := by
  refine ⟨rect_mkGrid hh hh64 hl hl64, ?_, ?_, ?_⟩
  · intro row hrow c hc
    unfold mkGrid at hrow
    rw [List.eq_of_mem_replicate hrow] at hc
    exact List.eq_of_mem_replicate hc
  · intro h
    subst h
    unfold mkGrid
    simp only [List.replicate_eq_nil_iff, Int.toNat_eq_zero]
    decide
  · intro h row hrow
    subst h
    unfold mkGrid at hrow
    rw [List.eq_of_mem_replicate hrow]
    simp only [List.replicate_eq_nil_iff, Int.toNat_eq_zero]
    decide

/-- C9 witness: requesting 3×4 yields 3 blank rows of length 4. -/
theorem c9_mkGrid_dimensions_witness :
    Rect (mkGrid 3 4) 3 4 :=
  (c9_mkGrid_dimensions 3 4 (by decide) (by decide) (by decide) (by decide)).1

/-! ### Claim C10 -/

/-- C10: engine construction normalizes every non-blank seed cell to the
particle character and pairs the grid with a blank next buffer, so both
grids start over the two-symbol alphabet \x7bparticle, blank\x7d; and
one `update` step preserves that invariant for both grids, since the
update passes write only the particle or the blank. -/
theorem c10_two_symbol_invariant (g0 : GridT) (p : Char) (s : GameOfLife) :
    TwoSymbol (GameOfLife.init g0 p).grid p ∧
    TwoSymbol (GameOfLife.init g0 p).next_grid p ∧
    (TwoSymbol s.grid s.particle → TwoSymbol s.next_grid s.particle →
      TwoSymbol (update s).grid s.particle ∧
      TwoSymbol (update s).next_grid s.particle) := by
  refine ⟨twoSymbol_replace g0 p, twoSymbol_blank _ _ p, fun hg hn => ?_⟩
  have hnext : TwoSymbol
      (check_multithread s.grid s.particle NUM_THREADS s.next_grid) s.particle :=
    twoSymbol_check_multithread hn
  simp only [update]
  split
  · exact ⟨hg, hnext⟩
  · exact ⟨hnext, hnext⟩

/-- C10 witness: after construction from the seed `[['x']]` and one
step, both grids of the engine state hold only the particle or blank. -/
theorem c10_two_symbol_invariant_witness :
    TwoSymbol (update { grid := [['*']], next_grid := [[' ']],
                        particle := '*', stale := false }).grid '*' :=
  ((c10_two_symbol_invariant [['x']] '*'
      { grid := [['*']], next_grid := [[' ']], particle := '*',
        stale := false }).2.2 (by decide) (by decide)).1

end GoL
